import Mathlib

/-!
Shallow embedding of the AmbientRun/DesignTokens token engine.

Sources embedded:
  * src/core/src/expression.rs  (value model, expression AST, peg grammar, evaluator)
  * src/core/src/lib.rs         (token tree, resolver, stylesheet and constant renderers)
  * src/core/src/extensions.rs  (studio.tokens HSL/LCH modify transforms)
  * src/src/extensions.rs       (the legacy root crate variant of the transform)

Modelling conventions:
  * Rust `f32`/`f64` magnitudes are modelled as `ℚ`.  Every value exercised by the
    theorems below has an exact finite decimal representation, where f32 rounding
    is irrelevant; this is noted again at the definitions it concerns.
  * Fallible or panicking code is modelled with `Option` (a `none` is a panic or a
    missing-path fault) or with explicit result types carrying the panic message.
  * The recursive reference resolver of `Expression::get_value` has no termination
    guarantee in the source (no visited set, no depth bound), so it is embedded as
    a fuel-indexed function: `none` at every fuel exactly captures unbounded
    recursion, and termination of the Rust recursion corresponds to success at
    some fuel.
  * `IndexMap` (insertion ordered) is modelled as an association list in insertion
    order.  `HashMap` (iteration order unspecified, randomized per process by
    `RandomState`) is modelled as an association list in *iteration* order: the
    same document can present its entries to the renderer in any permutation.
  * The external `csscolorparser` dependency (not part of this repository) is
    modelled on the inputs the repository uses: CSS hex color forms for `parse`,
    and the standard CSS HSL conversion algorithms for `to_hsla`/`from_hsla`
    (`normalize_angle` is the euclidean remainder by 360, channels are clamped to
    the unit interval on construction).  The LCH conversion (which needs cube
    roots and is used by no claim) is modelled as an unevaluated fault.
-/

/-! ## Small string and char utilities -/

/-- Rust `str::split(sep)` for a one-character separator, over char lists. -/
def splitOnChar (sep : Char) : List Char → List (List Char)
  | [] => [[]]
  | c :: cs =>
    if c = sep then [] :: splitOnChar sep cs
    else
      match splitOnChar sep cs with
      | [] => [[c]]
      | h :: t => (c :: h) :: t

/-- Numeric value of a list of decimal digit characters. -/
def natVal (ds : List Char) : ℕ :=
  ds.foldl (fun a c => 10 * a + (c.toNat - '0'.toNat)) 0

/-! ## Color model (csscolorparser dependency boundary)

The `csscolorparser::Color` struct: four `f64` channels in the unit interval. -/

structure Color where
  r : ℚ
  g : ℚ
  b : ℚ
  a : ℚ
deriving DecidableEq

/-- csscolorparser `clamp0_1`. -/
def clamp01 (x : ℚ) : ℚ := min 1 (max 0 x)

/-- csscolorparser `normalize_angle`: remainder by 360 shifted into `[0, 360)`. -/
def normalizeAngle (x : ℚ) : ℚ := x - 360 * ⌊x / 360⌋

/-- csscolorparser `hue_to_rgb` helper of the CSS HSL to RGB conversion:
the argument is reduced modulo 1 and mapped through the piecewise-linear hue ramp. -/
def hue_to_rgb (p q t0 : ℚ) : ℚ :=
  let t := t0 - ⌊t0⌋
  if t < 1/6 then p + (q - p) * 6 * t
  else if t < 1/2 then q
  else if t < 2/3 then p + (q - p) * (2/3 - t) * 6
  else p

/-- The `q` intermediate of the CSS HSL to RGB conversion. -/
def hslQ (s l : ℚ) : ℚ := if l < 1/2 then l * (1 + s) else l + s - l * s

/-- The `p` intermediate of the CSS HSL to RGB conversion. -/
def hslP (s l : ℚ) : ℚ := 2 * l - hslQ s l

/-- csscolorparser `hsl_to_rgb` (standard CSS algorithm). -/
def hsl_to_rgb (h s l : ℚ) : ℚ × ℚ × ℚ :=
  if s = 0 then (l, l, l)
  else
    (hue_to_rgb (hslP s l) (hslQ s l) (h / 360 + 1/3),
     hue_to_rgb (hslP s l) (hslQ s l) (h / 360),
     hue_to_rgb (hslP s l) (hslQ s l) (h / 360 - 1/3))

/-- csscolorparser `Color::from_hsla`: the angle is normalized and saturation,
lightness and alpha are clamped to the unit interval before conversion. -/
def from_hsla (h s l a : ℚ) : Color :=
  let rgb := hsl_to_rgb (normalizeAngle h) (clamp01 s) (clamp01 l)
  ⟨rgb.1, rgb.2.1, rgb.2.2, clamp01 a⟩

/-- csscolorparser `rgb_to_hsl` (standard CSS algorithm; achromatic colors get
hue 0 and saturation 0, otherwise saturation and hue are recovered from the
extremal channels and the final hue is normalized into `[0, 360)`). -/
def rgb_to_hsl (r g b : ℚ) : ℚ × ℚ × ℚ :=
  let mx := max r (max g b)
  let mn := min r (min g b)
  let l := (mx + mn) / 2
  if mx = mn then (0, 0, l)
  else
    let d := mx - mn
    let s := if l < 1/2 then d / (mx + mn) else d / (2 - mx - mn)
    let hRaw := if mx = r then (g - b) / d
                else if mx = g then 2 + (b - r) / d
                else 4 + (r - g) / d
    (normalizeAngle (hRaw * 60), s, l)

/-- csscolorparser `Color::to_hsla`. -/
def Color.to_hsla (c : Color) : ℚ × ℚ × ℚ × ℚ :=
  let hsl := rgb_to_hsl c.r c.g c.b
  (hsl.1, hsl.2.1, hsl.2.2, c.a)

/-- One channel of csscolorparser `Color::to_rgba8`: scale to 255, round
(Rust f64 `round`; all values met here are nonnegative, where it agrees with
`round` on `ℚ`) and saturate into a byte. -/
def channelToByte (x : ℚ) : ℕ := (min 255 (max 0 (round (x * 255)))).toNat

/-- Lowercase hex digit. -/
def hexDigitChar (n : ℕ) : Char :=
  if n < 10 then Char.ofNat ('0'.toNat + n) else Char.ofNat ('a'.toNat + (n - 10))

/-- Two lowercase hex digits of a byte. -/
def byteHex (n : ℕ) : String := String.mk [hexDigitChar (n / 16), hexDigitChar (n % 16)]

/-- csscolorparser `Color::to_hex_string`: `#rrggbb`, with the alpha byte
appended when it is below 255. -/
def Color.to_hex_string (c : Color) : String :=
  let r := channelToByte c.r
  let g := channelToByte c.g
  let b := channelToByte c.b
  let a := channelToByte c.a
  "#" ++ byteHex r ++ byteHex g ++ byteHex b ++ (if a < 255 then byteHex a else "")

/-- Value of one hex digit character (both cases, as csscolorparser lowercases
its input first). -/
def hexDigitVal (c : Char) : Option ℕ :=
  if c.isDigit then some (c.toNat - '0'.toNat)
  else if 'a' ≤ c ∧ c ≤ 'f' then some (c.toNat - 'a'.toNat + 10)
  else if 'A' ≤ c ∧ c ≤ 'F' then some (c.toNat - 'A'.toNat + 10)
  else none

/-- csscolorparser `parse` restricted to the CSS hex color forms (3, 4, 6 and 8
hex digits, leading `#` already stripped by the caller), the only color syntax
this repository's grammar feeds it.  Channels become unit-interval rationals.
Anything else (for example `zz` or the empty string) is a parse failure. -/
def cssColorParse (s : String) : Option Color :=
  match s.data.mapM hexDigitVal with
  | none => none
  | some ds =>
    match ds with
    | [r, g, b] => some ⟨17 * r / 255, 17 * g / 255, 17 * b / 255, 1⟩
    | [r, g, b, a] => some ⟨17 * r / 255, 17 * g / 255, 17 * b / 255, 17 * a / 255⟩
    | [r1, r0, g1, g0, b1, b0] =>
      some ⟨(16 * r1 + r0) / 255, (16 * g1 + g0) / 255, (16 * b1 + b0) / 255, 1⟩
    | [r1, r0, g1, g0, b1, b0, a1, a0] =>
      some ⟨(16 * r1 + r0) / 255, (16 * g1 + g0) / 255, (16 * b1 + b0) / 255,
            (16 * a1 + a0) / 255⟩
    | _ => none

/-- Rust `str::parse::<f64>` restricted to plain decimal literals (optional sign,
digits, optional fraction; exponents are used nowhere in this repository).
`none` models the parse error (which the callers `unwrap`, i.e. a panic). -/
def parseF64 (s : String) : Option ℚ :=
  let core : List Char → Option ℚ := fun l =>
    let ip := l.takeWhile Char.isDigit
    let r1 := l.dropWhile Char.isDigit
    match r1 with
    | [] => if ip.isEmpty then none else some (natVal ip)
    | '.' :: r2 =>
      let fp := r2.takeWhile Char.isDigit
      let r3 := r2.dropWhile Char.isDigit
      if r3.isEmpty then
        if ip.isEmpty ∧ fp.isEmpty then none
        else some ((natVal ip : ℚ) + (natVal fp : ℚ) / 10 ^ fp.length)
      else none
    | _ => none
  match s.data with
  | '-' :: rest => (core rest).map (fun v => -v)
  | l => core l

/-! ## Value model (src/core/src/expression.rs) -/

inductive NumberType where
  | none
  | pixels
  | percentage
deriving DecidableEq

/-- Decimal digits of a fractional part (fuel-bounded; every value met here has
a short finite expansion). -/
def fracDigits : ℕ → ℚ → List Char
  | 0, _ => []
  | n + 1, f =>
    if f = 0 then []
    else Char.ofNat ('0'.toNat + (⌊f * 10⌋).toNat) :: fracDigits n (f * 10 - ⌊f * 10⌋)

/-- Rust `format!("{}", value)` on an `f32`, modelled for values with a finite
decimal expansion (integers print without a decimal point, exactly as Rust's
shortest-representation `Display` does). -/
def fmtNum (x : ℚ) : String :=
  let sgn := if x < 0 then "-" else ""
  let y := |x|
  let ip := (⌊y⌋).toNat
  let fr := y - ⌊y⌋
  if fr = 0 then sgn ++ toString ip
  else sgn ++ toString ip ++ "." ++ String.mk (fracDigits 40 fr)

/-- Rust `NumberType::to_css`. -/
def NumberType.to_css : NumberType → ℚ → String
  | .none, v => fmtNum v
  | .pixels, v => fmtNum v ++ "px"
  | .percentage, v => fmtNum v ++ "%"

/-- Rust `NumberType::to_rust`: percentages are divided by 100 (`value * 0.01` in the
source; the f32 rounding of the constant is not modelled) and a decimal point is
appended when the formatted number has none. -/
def NumberType.to_rust (ty : NumberType) (v : ℚ) : String :=
  let v := match ty with
    | .percentage => v / 100
    | _ => v
  let x := fmtNum v
  if x.contains '.' then x else x ++ "."

inductive Value where
  | color (c : Color)
  | number (v : ℚ) (ty : NumberType)
  | any (s : String)
deriving DecidableEq

/-- Rust `Value::to_css`. -/
def Value.to_css : Value → String
  | .color c => c.to_hex_string
  | .number v ty => ty.to_css v
  | .any s => s

/-- Rust `Value::to_rust`. -/
def Value.to_rust : Value → String
  | .color c => "\"" ++ c.to_hex_string ++ "\""
  | .number v ty => ty.to_rust v
  | .any s => "\"" ++ s ++ "\""

/-- Rust `Value::to_rust_type`. -/
def Value.to_rust_type : Value → String
  | .number _ _ => "f32"
  | _ => "&\x27static str"

/-- Rust `Value::to_rust_string`. -/
def Value.to_rust_string (v : Value) : String :=
  match v with
  | .number _ _ => "\"" ++ v.to_rust ++ "\""
  | _ => v.to_rust

/-! ## Expression AST and token tree -/

inductive Expression where
  | ref (path : List String)
  | mul (a b : Expression)
  | div (a b : Expression)
  | value (v : Value)
deriving DecidableEq

inductive TokenType where
  | none
  | border
  | typography
  | other

/-- Rust `TokenValue`: a single expression, or a composite mapping of sub-key to
expression.  The source type of the composite case is a
`HashMap<String, Expression>`: the list below holds the map's entries in its
*iteration* order, which for Rust's `std` HashMap (randomized `RandomState`) is
unspecified and need not be the document's insertion order — documents that are
permutations of each other's entry lists denote the same map. -/
inductive TokenValue where
  | single (e : Expression)
  | dict (entries : List (String × Expression))
deriving DecidableEq

/-! ## Extensions (src/core/src/extensions.rs and the legacy src/src/extensions.rs) -/

inductive StudioTokensModify where
  | lighten
  | darken
  | alpha
  | other

inductive StudioTokensSpace where
  | hsl
  | lch
  | other

inductive StudioTokensExtension where
  | modify (type_ : StudioTokensModify) (value : String) (space : StudioTokensSpace)

inductive Extensions where
  | studioTokens (ext : StudioTokensExtension)

/-- Rust `StudioTokensExtension::to_rust` (core crate): parse the factor (`unwrap`:
`none` is the panic), require a Color base (anything else panics), and in HSL
space rescale the lightness multiplicatively.  The LCH arm (alpha rescale
through an LCH round trip) needs cube roots and is exercised by no claim; it and
the `todo!`/`panic!` arms are modelled as faults. -/
def StudioTokensExtension.to_rust : StudioTokensExtension → Value → Option Value
  | .modify ty val space, base =>
    (parseF64 val).bind fun f =>
      match base with
      | .color c =>
        match space with
        | .hsl =>
          let hsla := c.to_hsla
          (match ty with
            | .lighten => some (hsla.2.2.1 + hsla.2.2.1 * f)
            | .darken => some (hsla.2.2.1 - hsla.2.2.1 * f)
            | _ => Option.none).map fun l2 =>
              .color (from_hsla hsla.1 hsla.2.1 l2 hsla.2.2.2)
        | .lch => none
        | .other => none
      | _ => none

/-- Rust `StudioTokensExtension::to_css` (core crate): the same multiplicative HSL
transform, rendered directly as a hex string. -/
def StudioTokensExtension.to_css : StudioTokensExtension → Value → Option String
  | .modify ty val space, base =>
    (parseF64 val).bind fun f =>
      match base with
      | .color c =>
        match space with
        | .hsl =>
          let hsla := c.to_hsla
          (match ty with
            | .lighten => some (hsla.2.2.1 + hsla.2.2.1 * f)
            | .darken => some (hsla.2.2.1 - hsla.2.2.1 * f)
            | _ => Option.none).map fun l2 =>
              (from_hsla hsla.1 hsla.2.1 l2 hsla.2.2.2).to_hex_string
        | .lch => none
        | .other => none
      | _ => none

/-- Rust `StudioTokensExtension::to_css` of the legacy root crate
(src/src/extensions.rs): it ignores the declared color space entirely, always
works in HSL, and shifts the lightness *additively* (`l + value` / `l - value`),
unlike the core crate's multiplicative `l + l * value`. -/
def StudioTokensExtension.to_css_legacy : StudioTokensExtension → Value → Option String
  | .modify ty val _space, base =>
    (parseF64 val).bind fun f =>
      match base with
      | .color c =>
        let hsla := c.to_hsla
        (match ty with
          | .lighten => some (hsla.2.2.1 + f)
          | .darken => some (hsla.2.2.1 - f)
          | _ => Option.none).map fun l2 =>
            (from_hsla hsla.1 hsla.2.1 l2 hsla.2.2.2).to_hex_string
      | _ => none

/-! ## Token tree and document (src/core/src/lib.rs) -/

/-- Rust `TokenOrGroup`: a token (value, category tag, optional extension) or a group.
Groups are `IndexMap`s in the source: the association list preserves insertion
order, which is also iteration order. -/
inductive TokenOrGroup where
  | token (value : TokenValue) (type_ : TokenType) (extensions : Option Extensions)
  | group (entries : List (String × TokenOrGroup))

/-- Rust `IndexMap::get` on the ordered entry list. -/
def assocFind (k : String) : List (String × TokenOrGroup) → Option TokenOrGroup
  | [] => none
  | (k', v) :: rest => if k' = k then some v else assocFind k rest

structure DesignTokens where
  file_name : Option String
  body : TokenOrGroup

/-- Rust `TokenOrGroup::get_value`: walk the group chain one path segment at a time.
A token with a non-empty remaining path trips an `assert_eq!` panic, a group
with an empty path indexes `path[0]` out of bounds (a panic), and a missing key
propagates `None`; all three faults are `none` here. -/
def TokenOrGroup.get_value : TokenOrGroup → List String → Option TokenValue
  | .token v _ _, [] => some v
  | .token _ _ _, _ :: _ => none
  | .group _, [] => none
  | .group g, k :: rest => (assocFind k g).bind (fun c => c.get_value rest)

/-- Rust `DesignTokens::get_value`. -/
def DesignTokens.get_value (d : DesignTokens) (path : List String) : Option TokenValue :=
  d.body.get_value path

/-- Rust `DesignTokens::get_name`: second dot-segment of the file name, or the fixed
fallback name; a file name without a second segment is an `unwrap` panic. -/
def DesignTokens.get_name (d : DesignTokens) : Option String :=
  match d.file_name with
  | some name => ((splitOnChar '.' name.data).map String.mk)[1]?
  | none => some "ambient"

/-! ## Identifier slugging (src/core/src/lib.rs) -/

/-- One character of `slugify`: the fixed replacements, then ASCII lowercasing.
The final `deunicode` pass of the source is the identity on the ASCII strings
all documents in this development use. -/
def slugifyChar (sep : Char) (c : Char) : Char :=
  if c = ',' then 'c'
  else if c = '+' then 'p'
  else if c = '.' then 'd'
  else if c = '(' then '_'
  else if c = ')' then '_'
  else if c = ' ' then sep
  else c.toLower

/-- Rust `slugify`. -/
def slugify (s : String) (sep : Char) : String := s.map (slugifyChar sep)

/-- Rust `slugify_rs`. -/
def slugify_rs (s : String) : String := slugify s '_'

/-- Rust `slugify_css`. -/
def slugify_css (s : String) : String := slugify s '-'

/-- Rust `convert_case` `Case::UpperFlat`, modelled on the lowercase slugified
identifiers it receives here: delimiters are dropped and letters uppercased. -/
def toUpperFlat (s : String) : String :=
  String.mk ((s.data.filter (fun c => ¬(c = '_' ∨ c = '-' ∨ c = ' '))).map Char.toUpper)

/-- Rust `convert_case` `Case::Kebab`, modelled on the ASCII keys it receives here:
uppercase letters open a dash-separated lowercase word, delimiters become
dashes. -/
def toKebab (s : String) : String :=
  String.mk (s.data.foldr
    (fun c acc =>
      if c.isUpper then '-' :: c.toLower :: acc
      else if c = '_' ∨ c = ' ' then '-' :: acc
      else c :: acc) [])

/-! ## Expression rendering and evaluation (src/core/src/expression.rs) -/

/-- Rust `Expression::to_css`: references render as live custom-property lookups on
the slugified dash-joined path, arithmetic as `calc(..)`. -/
def Expression.to_css (tokens : DesignTokens) : Expression → String
  | .ref path => "var(--" ++ String.intercalate "-" (path.map slugify_css) ++ ")"
  | .mul a b => "calc(" ++ a.to_css tokens ++ " * " ++ b.to_css tokens ++ ")"
  | .div a b => "calc(" ++ a.to_css tokens ++ " / " ++ b.to_css tokens ++ ")"
  | .value v => v.to_css

/-- Rust `Expression::get_value`, the recursive resolver.  The source recursion has
no cycle guard and no depth bound, so it is indexed by fuel: `none` means the
recursion did not complete within the given depth (or hit one of the source's
panics: a missing path's `expect`, a composite token's `panic!`, or the `todo!`
on mixed-kind arithmetic).  A reference resolves the target token's expression
(`TokenValue::get_value` is inlined in the `.ref` arm) and evaluates it in turn;
products and quotients are componentwise on colors, and on numbers operate on
the magnitudes with the left operand's `NumberType`. -/
def Expression.get_value (tokens : DesignTokens) : ℕ → Expression → Option Value
  | 0, _ => none
  | n + 1, e =>
    match e with
    | .ref path =>
      match tokens.get_value path with
      | some (.single e2) => Expression.get_value tokens n e2
      | some (.dict _) => none
      | none => none
    | .mul a b =>
      match Expression.get_value tokens n a, Expression.get_value tokens n b with
      | some (.color x), some (.color y) =>
        some (.color ⟨x.r * y.r, x.g * y.g, x.b * y.b, x.a * y.a⟩)
      | some (.number x u), some (.number y _) => some (.number (x * y) u)
      | _, _ => none
    | .div a b =>
      match Expression.get_value tokens n a, Expression.get_value tokens n b with
      | some (.color x), some (.color y) =>
        some (.color ⟨x.r / y.r, x.g / y.g, x.b / y.b, x.a / y.a⟩)
      | some (.number x u), some (.number y _) => some (.number (x / y) u)
      | _, _ => none
    | .value v => some v

/-- Rust `TokenValue::get_value`: only single expressions resolve; a composite is the
"Can't resolve" panic. -/
def TokenValue.get_value (tokens : DesignTokens) (n : ℕ) : TokenValue → Option Value
  | .single e => Expression.get_value tokens n e
  | .dict _ => none

/-! ## The peg expression grammar (src/core/src/expression.rs, `expr_parser`)

The grammar is embedded as a recursive-descent parser with PEG committed-choice
semantics: terminal alternatives are tried in the written order (reference,
color, percentage number, pixel number, bare number, opaque fallback), the
first alternative whose pattern matches is committed to, and a left-associative
climb of `*` and `/` (with optional surrounding whitespace) runs above the
terminals.  The color alternative's action calls
`csscolorparser::parse(v).unwrap()`: an invalid color is a *panic*, not a parse
failure, and is carried as an explicit `crash` result. -/

/-- Outcome of one terminal alternative / of the whole atom choice. -/
inductive AtomRes where
  | ok (e : Expression) (rest : List Char)
  | crash (msg : String)
deriving DecidableEq

/-- Final outcome of `expr_parser::expr` as exposed through serde's
`ExpressionVisitor::visit_str`: a tree, a `ParseError` (wrapped into the
deserializer error with the offending text), or a panic escaping the parser. -/
inductive PResult where
  | ok (e : Expression)
  | err (msg : String)
  | crash (msg : String)
deriving DecidableEq

/-- Reference path flattening: split the brace content on dots, then split each
dot-segment on slashes (`split("/")` inside the `flat_map` of the rule action). -/
def flattenPath (content : List Char) : List String :=
  (splitOnChar '.' content).flatMap (fun seg => (splitOnChar '/' seg).map String.mk)

/-- Reference alternative: `"{" ( [^}.]* ) ** "." "}"`, then flattening.  The
segment list consumes exactly the characters before the first `}`. -/
def pRef : List Char → Option (Expression × List Char)
  | '\x7b' :: rest =>
    let content := rest.takeWhile (fun c => ¬ c = '\x7d')
    match rest.dropWhile (fun c => ¬ c = '\x7d') with
    | '\x7d' :: rem => some (.ref (flattenPath content), rem)
    | _ => none
  | _ => none

/-- The number rule: `"-"? ['0'..='9']+ "."? ['0'..='9']*`, with the matched
text read back as a number (`f32` in the source; exact here). -/
def pNumUnsigned (l : List Char) : Option (ℚ × List Char) :=
  let ds := l.takeWhile Char.isDigit
  let r1 := l.dropWhile Char.isDigit
  if ds.isEmpty then none
  else
    match r1 with
    | '.' :: r2 =>
      let fs := r2.takeWhile Char.isDigit
      let r3 := r2.dropWhile Char.isDigit
      some ((natVal ds : ℚ) + (natVal fs : ℚ) / 10 ^ fs.length, r3)
    | _ => some ((natVal ds : ℚ), r1)

def pNumber : List Char → Option (ℚ × List Char)
  | '-' :: r => (pNumUnsigned r).map (fun vr => (-vr.1, vr.2))
  | l => pNumUnsigned l

/-- Percentage alternative. -/
def pPct (l : List Char) : Option (Expression × List Char) :=
  (pNumber l).bind fun vr =>
    match vr.2 with
    | '%' :: r2 => some (.value (.number vr.1 .percentage), r2)
    | _ => none

/-- Pixel alternative. -/
def pPx (l : List Char) : Option (Expression × List Char) :=
  (pNumber l).bind fun vr =>
    match vr.2 with
    | 'p' :: 'x' :: r2 => some (.value (.number vr.1 .pixels), r2)
    | _ => none

/-- Bare number alternative. -/
def pBare (l : List Char) : Option (Expression × List Char) :=
  (pNumber l).map (fun vr => (.value (.number vr.1 .none), vr.2))

/-- Character class of the opaque fallback alternative. -/
def opaqueChar (c : Char) : Bool :=
  c.isAlphanum || c = '#' || c = '%' || c = '-' || c = '.' || c = ' '

/-- Opaque fallback: a (possibly empty) greedy run of its character class; it
never fails. -/
def pOpaque (l : List Char) : Expression × List Char :=
  (.value (.any (String.mk (l.takeWhile opaqueChar))), l.dropWhile opaqueChar)

/-- The ordered terminal choice.  The color alternative's pattern (`#` then a
greedy alphanumeric run) always matches once `#` is seen, so its
`csscolorparser::parse(..).unwrap()` action then decides between a value and a
panic; no later alternative is ever consulted (PEG commitment). -/
def pAtom (l : List Char) : AtomRes :=
  match pRef l with
  | some er => .ok er.1 er.2
  | none =>
    match l with
    | '#' :: rest =>
      let run := rest.takeWhile Char.isAlphanum
      let rem := rest.dropWhile Char.isAlphanum
      match cssColorParse (String.mk run) with
      | some c => .ok (.value (.color c)) rem
      | none => .crash ("csscolorparser failed on: " ++ String.mk run)
    | _ =>
      match pPct l with
      | some er => .ok er.1 er.2
      | none =>
        match pPx l with
        | some er => .ok er.1 er.2
        | none =>
          match pBare l with
          | some er => .ok er.1 er.2
          | none =>
            let er := pOpaque l
            .ok er.1 er.2

/-- Grammar whitespace rule `_`. -/
def isWs (c : Char) : Bool := c = ' ' || c = '\n' || c = '\t'

/-- The left-associative `*` / `/` climb above the terminals.  Every iteration
consumes the operator character, so fuel `rest.length + 1` (as supplied by
`parseExpr`) can never run out; the fuel-exhaustion arm is unreachable.  When no
operator follows, the whitespace probed for it is given back (PEG backtracking
of the failed infix attempt). -/
def climbOps : ℕ → Expression → List Char → AtomRes
  | 0, _, _ => .crash "unreachable: operator climb fuel exhausted"
  | fuel + 1, acc, l =>
    match l.dropWhile isWs with
    | '*' :: r =>
      match pAtom (r.dropWhile isWs) with
      | .crash m => .crash m
      | .ok y rest => climbOps fuel (.mul acc y) rest
    | '/' :: r =>
      match pAtom (r.dropWhile isWs) with
      | .crash m => .crash m
      | .ok y rest => climbOps fuel (.div acc y) rest
    | _ => .ok acc l

/-- Rust `expr_parser::expr` run on a whole string: parse an atom, climb the
operators, and require end of input (a rust-peg `pub rule` must consume the
entire input; leftovers are the `ParseError` that `visit_str` wraps with the
offending text). -/
def parseExpr (s : String) : PResult :=
  match pAtom s.data with
  | .crash m => .crash m
  | .ok e rest =>
    match climbOps (rest.length + 1) e rest with
    | .crash m => .crash m
    | .ok e2 rest2 =>
      if rest2.isEmpty then .ok e2
      else .err ("Invalid expression: expected end of input at: " ++ String.mk rest2)

/-! ## Renderers (src/core/src/lib.rs)

Both renderers walk the tree and resolve values with `Expression::get_value`,
so they inherit its fuel index `n`; the walk itself is additionally indexed by
a tree-depth fuel `d` (any `d` at least the document depth behaves like the
source's structural recursion). -/

/-- Rust `css_property`: the category-aware property-name table. -/
def css_property (type_ : TokenType) (key : String) : String :=
  match type_ with
  | .border =>
    if key = "color" then "border-color"
    else if key = "width" then "border-width"
    else if key = "style" then "border-style"
    else toKebab key
  | .typography =>
    if key = "textCase" ∨ key = "text-case" then "text-transform"
    else if key = "lineHeight" then "line-height"
    else toKebab key
  | _ => toKebab key

/-- Rust `css_value`: bare (unitless) numbers default to pixels in stylesheet
output. -/
def css_value (tokens : DesignTokens) (value : Expression) : String :=
  match value with
  | .value (.number v .none) => (Expression.value (.number v .pixels)).to_css tokens
  | _ => value.to_css tokens

/-- Rust `css_entry`. -/
def css_entry (tokens : DesignTokens) (type_ : TokenType) (key : String)
    (value : Expression) : String :=
  css_property type_ key ++ ": " ++ css_value tokens value ++ ";"

/-- Rust `TokenOrGroup::to_css`, the stylesheet renderer.  A scalar token with a
studio.tokens extension emits the extension's fully resolved hex text; without
one it emits the live `css_value` rendering.  Composite tokens emit a block of
`css_entry` lines in the composite map's iteration order, groups emit their
children in insertion order under a dash-extended slugified path. -/
def TokenOrGroup.to_css (tokens : DesignTokens) (root_class : String) :
    ℕ → ℕ → String → TokenOrGroup → Option String
  | 0, _, _, _ => none
  | _ + 1, n, path, .token value type_ extensions =>
    match value with
    | .single v =>
      (match extensions with
        | some (.studioTokens ext) => (Expression.get_value tokens n v).bind ext.to_css
        | _ => some (css_value tokens v)).map fun str =>
        "." ++ root_class ++ " \x7b -" ++ path ++ ": " ++ str ++ "; \x7d"
    | .dict dict =>
      some ("." ++ root_class ++ " ." ++ path.drop 1 ++ " \x7b\n" ++
        String.intercalate "\n" (dict.map (fun kv => css_entry tokens type_ kv.1 kv.2)) ++
        "\n\x7d")
  | d + 1, n, path, .group g =>
    (g.mapM (fun kv =>
      TokenOrGroup.to_css tokens root_class d n (path ++ "-" ++ slugify_css kv.1) kv.2)).map
      (String.intercalate "\n")

/-- Rust `TokenOrGroup::to_rust`, the constant renderer.  Everything is fully
resolved before emission; composite tokens emit one constant holding the
`(sub-key, resolved text)` pairs in the composite map's iteration order; group
children extend an underscore-joined upper-flat path in insertion order. -/
def TokenOrGroup.to_rust (tokens : DesignTokens) :
    ℕ → ℕ → String → TokenOrGroup → Option String
  | 0, _, _, _ => none
  | _ + 1, n, path, .token value _ extensions =>
    match value with
    | .single v =>
      (match extensions with
        | some (.studioTokens ext) => (Expression.get_value tokens n v).bind ext.to_rust
        | _ => Expression.get_value tokens n v).map fun (res : Value) =>
        "pub const " ++ path ++ ": " ++ res.to_rust_type ++ " = " ++ res.to_rust ++ ";"
    | .dict dict =>
      (dict.mapM (fun kv =>
        (Expression.get_value tokens n kv.2).map fun v =>
          "(\"" ++ kv.1 ++ "\", " ++ v.to_rust_string ++ ")")).map fun parts =>
        "pub const " ++ path ++ ": &\x27static [(&\x27static str, &\x27static str)] = &[" ++
          String.intercalate ", " parts ++ "];"
  | d + 1, n, path, .group g =>
    (g.mapM (fun kv =>
      let key := toUpperFlat (slugify_rs kv.1)
      TokenOrGroup.to_rust tokens d n
        (if path.isEmpty then key else path ++ "_" ++ key) kv.2)).map
      (String.intercalate "\n")

/-- Rust `DesignTokens::to_css`. -/
def DesignTokens.to_css (d n : ℕ) (doc : DesignTokens) : Option String :=
  doc.get_name.bind fun name =>
    doc.body.to_css doc (slugify_css name) d n ""

/-- Rust `DesignTokens::to_rust`. -/
def DesignTokens.to_rust (d n : ℕ) (doc : DesignTokens) : Option String :=
  doc.body.to_rust doc d n ""

/-! ## Concrete documents used by the claims -/

/-- The empty document (no token ever needs it during evaluation of literals). -/
def emptyDoc : DesignTokens := ⟨none, .group []⟩

/-- The cyclic two-token document: token `a` references `b` and `b` references
`a`. -/
def cycleDoc : DesignTokens := ⟨none, .group [
  ("a", .token (.single (.ref ["b"])) .none none),
  ("b", .token (.single (.ref ["a"])) .none none)]⟩

/-- Token `x` references `y`; `y` is the literal `Number(5, none)`. -/
def docXY : DesignTokens := ⟨none, .group [
  ("x", .token (.single (.ref ["y"])) .none none),
  ("y", .token (.single (.value (.number 5 .none))) .none none)]⟩

/-- The parse of `"#ff00ff"`. -/
def brandExpr : Expression := .value (.color ⟨1, 0, 1, 1⟩)

/-- The parse of `"{Color.Brand}"`. -/
def accentExpr : Expression := .ref ["Color", "Brand"]

/-- The end-to-end document of the specification:
`{ Color: { Brand: { value: "#ff00ff" }, Accent: { value: "{Color.Brand}" } } }`. -/
def doc6 : DesignTokens := ⟨none, .group [
  ("Color", .group [
    ("Brand", .token (.single brandExpr) .other none),
    ("Accent", .token (.single accentExpr) .other none)])]⟩

/-- A composite sub-entry `width: 1`. -/
def widthEntry : String × Expression := ("width", .value (.number 1 .none))

/-- A composite sub-entry `style: "solid"`. -/
def styleEntry : String × Expression := ("style", .value (.any "solid"))

/-- A document with a base gray color token (lightness 2/5) and a token that
references it while carrying a studio.tokens HSL lighten extension. -/
def docMod : DesignTokens := ⟨none, .group [
  ("base", .token (.single (.value (.color ⟨2/5, 2/5, 2/5, 1⟩))) .none none),
  ("mod", .token (.single (.ref ["base"])) .none
    (some (.studioTokens (.modify .lighten "0.5" .hsl))))]⟩

/-! ## General helper lemmas -/

theorem intercalate_pair (s a b : String) : String.intercalate s [a, b] = a ++ s ++ b := rfl

theorem mapM_pair {α β : Type} (f : α → Option β) (x y : α) :
    List.mapM f [x, y] = (f x).bind fun b1 => (f y).bind fun b2 => some [b1, b2] := rfl

theorem to_hex_string_head (c : Color) : c.to_hex_string.data.head? = some '#' := by
  simp [Color.to_hex_string, byteHex, String.data_append]

/-! ## Claims -/

/-- C1: the spec requires a cycle to be detected and reported as a CycleError
from any entry point, but `Expression::get_value` has no cycle guard and no
depth bound: on the two-token cycle (`a` references `b`, `b` references `a`)
both tokens exist and the recursion exhausts *every* recursion depth without
producing any value — the source recurses without bound (a stack overflow, not
a reported fault). -/
theorem c1_cycle_unbounded_recursion :
    cycleDoc.get_value ["a"] = some (.single (.ref ["b"]))
    ∧ cycleDoc.get_value ["b"] = some (.single (.ref ["a"]))
    ∧ ∀ n : ℕ, Expression.get_value cycleDoc n (.ref ["a"]) = none
        ∧ Expression.get_value cycleDoc n (.ref ["b"]) = none := by
  refine ⟨rfl, rfl, ?_⟩
  intro n
  induction n with
  | zero => exact ⟨rfl, rfl⟩
  | succ n ih =>
    refine ⟨?_, ?_⟩
    · show Expression.get_value cycleDoc n (.ref ["b"]) = none
      exact ih.2
    · show Expression.get_value cycleDoc n (.ref ["a"]) = none
      exact ih.1

/-- C2: the claim says every raw value string parses to a tree or fails with a
ParseError embedding the offending text; but on `"#zz"` (and on a bare `"#"`)
the color alternative's pattern matches and its action panics on
`csscolorparser::parse(v).unwrap()` — the failure is a panic escaping the
parser, not a ParseError. -/
theorem c2_hash_panics_not_parse_error :
    parseExpr "#zz" = .crash "csscolorparser failed on: zz"
    ∧ parseExpr "#" = .crash "csscolorparser failed on: " := by
  exact ⟨rfl, rfl⟩

/-- C5: `Multiply` and `Divide` on two Numbers operate on the magnitudes only
and keep the left operand's `NumberType`, whatever the right operand's unit. -/
theorem c5_left_operand_unit (tokens : DesignTokens) (n : ℕ) (a b : Expression)
    (x y : ℚ) (u v : NumberType)
    (ha : Expression.get_value tokens n a = some (.number x u))
    (hb : Expression.get_value tokens n b = some (.number y v)) :
    Expression.get_value tokens (n + 1) (.mul a b) = some (.number (x * y) u)
    ∧ Expression.get_value tokens (n + 1) (.div a b) = some (.number (x / y) u) := by
  constructor
  · show (match Expression.get_value tokens n a, Expression.get_value tokens n b with
      | some (.color p), some (.color q) =>
        some (Value.color ⟨p.r * q.r, p.g * q.g, p.b * q.b, p.a * q.a⟩)
      | some (.number p u), some (.number q _) => some (Value.number (p * q) u)
      | _, _ => none) = some (.number (x * y) u)
    rw [ha, hb]
  · show (match Expression.get_value tokens n a, Expression.get_value tokens n b with
      | some (.color p), some (.color q) =>
        some (Value.color ⟨p.r / q.r, p.g / q.g, p.b / q.b, p.a / q.a⟩)
      | some (.number p u), some (.number q _) => some (Value.number (p / q) u)
      | _, _ => none) = some (.number (x / y) u)
    rw [ha, hb]

/-- C5 witness: `evaluate(Multiply(Number(2, pixel), Number(3, none)))` is
`Number(6, pixel)` (and the division analogue keeps the left unit too). -/
theorem c5_left_operand_unit_witness :
    Expression.get_value emptyDoc 2
      (.mul (.value (.number 2 .pixels)) (.value (.number 3 .none)))
      = some (.number 6 .pixels)
    ∧ Expression.get_value emptyDoc 2
      (.div (.value (.number 2 .pixels)) (.value (.number 3 .none)))
      = some (.number (2 / 3) .pixels) := by
  have h := c5_left_operand_unit emptyDoc 1 (.value (.number 2 .pixels))
    (.value (.number 3 .none)) 2 3 .pixels .none (by with_unfolding_all decide)
    (by with_unfolding_all decide)
  exact ⟨by rw [h.1]; norm_num, h.2⟩

/-- C7: evaluating a Reference resolves the referenced token's expression and
evaluates that expression in turn (transitive resolution). -/
theorem c7_reference_transitive (tokens : DesignTokens) (n : ℕ) (p : List String)
    (e : Expression) (h : tokens.get_value p = some (.single e)) :
    Expression.get_value tokens (n + 1) (.ref p) = Expression.get_value tokens n e := by
  show (match tokens.get_value p with
    | some (.single e2) => Expression.get_value tokens n e2
    | some (.dict _) => none
    | none => none) = Expression.get_value tokens n e
  rw [h]

/-- C7 witness: with `x` referencing `y` and `y` the literal `Number(5, none)`,
resolving `x` steps to `y`'s expression and yields `Number(5, none)`. -/
theorem c7_reference_transitive_witness :
    Expression.get_value docXY 3 (.ref ["x"]) = Expression.get_value docXY 2 (.ref ["y"])
    ∧ Expression.get_value docXY 3 (.ref ["x"]) = some (.number 5 .none) := by
  refine ⟨c7_reference_transitive docXY 2 ["x"] (.ref ["y"]) (by with_unfolding_all decide),
    by with_unfolding_all decide⟩

/-- C9: the terminal alternatives are tried in the fixed written order and the
first fully matching one wins: `"90%"` and `"-90%"` parse as percentage
Numbers, even though the opaque fallback alternative (tried last) also matches
both inputs in full. -/
theorem c9_alternative_order :
    parseExpr "90%" = .ok (.value (.number 90 .percentage))
    ∧ parseExpr "-90%" = .ok (.value (.number (-90) .percentage))
    ∧ pOpaque "90%".data = (.value (.any "90%"), [])
    ∧ pOpaque "-90%".data = (.value (.any "-90%"), []) := by
  refine ⟨by with_unfolding_all decide, by with_unfolding_all decide,
    by with_unfolding_all decide, by with_unfolding_all decide⟩

/-- C6: on the spec's end-to-end document, the raw values parse to a color
literal and a reference, the stylesheet renderer emits `Accent` as a live
custom-property lookup of `Brand`'s slugified dash-joined identifier, and the
constant renderer emits `Accent` fully resolved to the literal hex string. -/
theorem c6_end_to_end :
    parseExpr "#ff00ff" = .ok brandExpr
    ∧ parseExpr "\x7bColor.Brand\x7d" = .ok accentExpr
    ∧ DesignTokens.to_css 3 3 doc6 =
        some (".ambient \x7b " ++ "--color-brand: #ff00ff; \x7d\n.ambient \x7b " ++
          "--color-accent: var(--color-brand); \x7d")
    ∧ DesignTokens.to_rust 3 3 doc6 =
        some ("pub const COLOR_BRAND: &\x27static str = \"#ff00ff\";\n" ++
          "pub const COLOR_ACCENT: &\x27static str = \"#ff00ff\";") := by
  refine ⟨by with_unfolding_all decide, by with_unfolding_all decide,
    by with_unfolding_all decide, by with_unfolding_all decide⟩

/-- C3 counterexample: the composite (dict) token value is a
`HashMap<String, Expression>` whose iteration order is unspecified — not an
insertion-ordered map.  The two dict lists below are permutations of each other
(the same map content, two of its possible iteration orders), yet the constant
renderer emits different text for them: emission order of composite sub-entries
is therefore *not* determined by the document's insertion order. -/
theorem c3_hashmap_order_counterexample :
    List.Perm [styleEntry, widthEntry] [widthEntry, styleEntry]
    ∧ TokenOrGroup.to_rust emptyDoc 1 1 "T" (.token (.dict [styleEntry, widthEntry]) .none none)
      ≠ TokenOrGroup.to_rust emptyDoc 1 1 "T" (.token (.dict [widthEntry, styleEntry]) .none none) := by
  refine ⟨by decide, by with_unfolding_all decide⟩

/-- C3 (amended): the constant renderer emits a composite token's
`(sub-key, resolved-value-as-text)` pairs in the iteration order of the hash
map that holds them (an order the document does not determine), while *group*
children — held in an insertion-ordered `IndexMap` — are emitted in document
insertion order. -/
theorem c3_dict_iteration_group_insertion (tokens : DesignTokens) (d n : ℕ)
    (path path2 : String) (ty : TokenType) (ex : Option Extensions)
    (k1 k2 : String) (e1 e2 : Expression) (v1 v2 : Value)
    (ka kb : String) (ta tb : TokenOrGroup) (sa sb : String)
    (h1 : Expression.get_value tokens n e1 = some v1)
    (h2 : Expression.get_value tokens n e2 = some v2)
    (h3 : TokenOrGroup.to_rust tokens d n
      (if path2.isEmpty = true then toUpperFlat (slugify_rs ka)
       else path2 ++ "_" ++ toUpperFlat (slugify_rs ka)) ta = some sa)
    (h4 : TokenOrGroup.to_rust tokens d n
      (if path2.isEmpty = true then toUpperFlat (slugify_rs kb)
       else path2 ++ "_" ++ toUpperFlat (slugify_rs kb)) tb = some sb) :
    TokenOrGroup.to_rust tokens (d + 1) n path (.token (.dict [(k1, e1), (k2, e2)]) ty ex)
      = some ("pub const " ++ path ++
          ": &\x27static [(&\x27static str, &\x27static str)] = &[" ++
          ("(\"" ++ k1 ++ "\", " ++ v1.to_rust_string ++ ")" ++ ", " ++
           ("(\"" ++ k2 ++ "\", " ++ v2.to_rust_string ++ ")")) ++ "];")
    ∧ TokenOrGroup.to_rust tokens (d + 1) n path2 (.group [(ka, ta), (kb, tb)])
      = some (sa ++ "\n" ++ sb) := by
  constructor
  · simp only [TokenOrGroup.to_rust, mapM_pair, h1, h2, Option.map_some, Option.map_some',
      Option.some_bind, Option.bind_some, intercalate_pair]
  · simp only [TokenOrGroup.to_rust, mapM_pair, h3, h4, Option.map_some, Option.map_some',
      Option.some_bind, Option.bind_some, intercalate_pair]

/-- C3 witness: concrete composite and group renders, pairs emitted in the
given entry order. -/
theorem c3_dict_iteration_group_insertion_witness :
    TokenOrGroup.to_rust emptyDoc (1 + 1) 1 "T"
      (.token (.dict [("width", .value (.number 1 .none)), ("style", .value (.any "solid"))])
        .none none)
      = some ("pub const T: &\x27static [(&\x27static str, &\x27static str)] = " ++
          "&[(\"width\", \"1.\"), (\"style\", \"solid\")];")
    ∧ TokenOrGroup.to_rust emptyDoc (1 + 1) 1 ""
        (.group [("a", .token (.single (.value (.number 1 .none))) .none none),
                 ("b", .token (.single (.value (.number 2 .none))) .none none)])
      = some ("pub const A: f32 = 1.;" ++ "\n" ++ "pub const B: f32 = 2.;") := by
  have h := c3_dict_iteration_group_insertion emptyDoc 1 1 "T" "" .none none
    "width" "style" (.value (.number 1 .none)) (.value (.any "solid"))
    (.number 1 .none) (.any "solid")
    "a" "b" (.token (.single (.value (.number 1 .none))) .none none)
    (.token (.single (.value (.number 2 .none))) .none none)
    "pub const A: f32 = 1.;" "pub const B: f32 = 2.;"
    (by with_unfolding_all decide) (by with_unfolding_all decide)
    (by with_unfolding_all decide) (by with_unfolding_all decide)
  refine ⟨?_, h.2⟩
  rw [h.1]; with_unfolding_all decide

/-- C10: a scalar color token carrying a studio.tokens HSL-lighten Modify
extension always emits, in the stylesheet output, the fully resolved and
transformed color as a hex-string literal (its first character is `#`, so it is
never a `var(..)` lookup) — whatever expression the token's raw value is, a
Reference included. -/
theorem c10_extension_emits_resolved_hex (tokens : DesignTokens) (d n : ℕ)
    (root_class path fs : String) (ty : TokenType) (e : Expression) (c : Color) (f : ℚ)
    (hv : parseF64 fs = some f)
    (he : Expression.get_value tokens n e = some (.color c)) :
    TokenOrGroup.to_css tokens root_class (d + 1) n path
      (.token (.single e) ty (some (.studioTokens (.modify .lighten fs .hsl))))
    = some ("." ++ root_class ++ " \x7b -" ++ path ++ ": " ++
        (from_hsla c.to_hsla.1 c.to_hsla.2.1 (c.to_hsla.2.2.1 + c.to_hsla.2.2.1 * f)
          c.to_hsla.2.2.2).to_hex_string ++ "; \x7d")
    ∧ ((from_hsla c.to_hsla.1 c.to_hsla.2.1 (c.to_hsla.2.2.1 + c.to_hsla.2.2.1 * f)
          c.to_hsla.2.2.2).to_hex_string).data.head? = some '#' := by
  refine ⟨?_, to_hex_string_head _⟩
  simp [TokenOrGroup.to_css, StudioTokensExtension.to_css, he, hv]

/-- C10 witness: in `docMod` the extension-carrying token's raw value is the
reference `{base}`, and its stylesheet entry is the resolved transformed hex
literal, not a `var(--base)` lookup. -/
theorem c10_extension_emits_resolved_hex_witness :
    TokenOrGroup.to_css docMod "ambient" 1 2 "-mod"
      (.token (.single (.ref ["base"])) .none
        (some (.studioTokens (.modify .lighten "0.5" .hsl))))
    = some (".ambient \x7b " ++ "--mod: #999999; \x7d")
    ∧ ("#999999" : String).data.head? = some '#' := by
  have h := c10_extension_emits_resolved_hex docMod 0 2 "ambient" "-mod" "0.5" .none
    (.ref ["base"]) ⟨2/5, 2/5, 2/5, 1⟩ (1/2)
    (by with_unfolding_all decide) (by with_unfolding_all decide)
  refine ⟨?_, by decide⟩
  rw [h.1]; with_unfolding_all decide

theorem splitOnChar_not_mem {c : Char} : ∀ {l : List Char}, c ∉ l → splitOnChar c l = [l]
  | [], _ => rfl
  | x :: xs, h => by
    have hx : ¬ x = c := fun he => h (by simp [he])
    have ih := splitOnChar_not_mem (l := xs) (fun hm => h (List.mem_cons_of_mem _ hm))
    simp only [splitOnChar, if_neg hx, ih]

theorem splitOnChar_append {c : Char} : ∀ (a b : List Char), c ∉ a →
    splitOnChar c (a ++ c :: b) = a :: splitOnChar c b
  | [], b, _ => by simp [splitOnChar]
  | x :: xs, b, h => by
    have hx : ¬ x = c := fun he => h (by simp [he])
    have ih := splitOnChar_append xs b (fun hm => h (List.mem_cons_of_mem _ hm))
    simp only [List.cons_append, splitOnChar, if_neg hx, List.append_eq, ih]

/-- C8: reference path flattening is separator-equivalent.  For any two
segments, a dotted reference body and a slashed reference body flatten to the
same two-element path (splitting on dots, then splitting each dot-segment on
slashes), and concretely both `parse("{a.b}")` and `parse("{a/b}")` produce a
Reference with the identical ordered path `["a", "b"]`. -/
theorem c8_separator_equivalence (a b : List Char)
    (hda : '.' ∉ a) (hdb : '.' ∉ b) (hsa : '/' ∉ a) (hsb : '/' ∉ b) :
    (flattenPath (a ++ '.' :: b) = [String.mk a, String.mk b]
     ∧ flattenPath (a ++ '/' :: b) = [String.mk a, String.mk b])
    ∧ parseExpr "\x7ba.b\x7d" = .ok (.ref ["a", "b"])
    ∧ parseExpr "\x7ba/b\x7d" = .ok (.ref ["a", "b"]) := by
  refine ⟨⟨?_, ?_⟩, by with_unfolding_all decide, by with_unfolding_all decide⟩
  · simp only [flattenPath, splitOnChar_append a b hda, splitOnChar_not_mem hdb,
      splitOnChar_not_mem hsa, splitOnChar_not_mem hsb, List.flatMap_cons,
      List.flatMap_nil, List.map_cons, List.map_nil, List.append_nil, List.nil_append,
      List.cons_append, List.singleton_append]
  · have hmem : '.' ∉ a ++ '/' :: b := by
      intro hm
      rcases List.mem_append.mp hm with h | h
      · exact hda h
      · rcases List.mem_cons.mp h with h | h
        · exact absurd h (by decide)
        · exact hdb h
    simp only [flattenPath, splitOnChar_not_mem hmem, splitOnChar_append a b hsa,
      splitOnChar_not_mem hsb, List.flatMap_cons, List.flatMap_nil, List.map_cons,
      List.map_nil, List.append_nil, List.nil_append, List.cons_append,
      List.singleton_append]

/-- C8 witness: the general flattening law applied at the concrete segments
`a` and `b`. -/
theorem c8_separator_equivalence_witness :
    (flattenPath (['a'] ++ '.' :: ['b']) = [String.mk ['a'], String.mk ['b']]
     ∧ flattenPath (['a'] ++ '/' :: ['b']) = [String.mk ['a'], String.mk ['b']])
    ∧ parseExpr "\x7ba.b\x7d" = .ok (.ref ["a", "b"])
    ∧ parseExpr "\x7ba/b\x7d" = .ok (.ref ["a", "b"]) :=
  c8_separator_equivalence ['a'] ['b'] (by decide) (by decide) (by decide) (by decide)

/-- C4 counterexample: the legacy root-crate stylesheet transform
(src/src/extensions.rs) is *additive*, not multiplicative.  On the gray base
color with HSL lightness 2/5 and factor 0.5 it produces the color of lightness
2/5 + 1/2 = 9/10 (hex `#e6e6e6`), whereas the claim's `l + l*f` demands
lightness 3/5 (hex `#999999`): the resulting lightness 9/10 differs from
2/5 + (2/5) * (1/2). -/
theorem c4_legacy_additive_counterexample :
    (⟨2/5, 2/5, 2/5, 1⟩ : Color).to_hsla = (0, 0, 2/5, 1)
    ∧ StudioTokensExtension.to_css_legacy (.modify .lighten "0.5" .hsl)
        (.color ⟨2/5, 2/5, 2/5, 1⟩) = some "#e6e6e6"
    ∧ (from_hsla 0 0 (9/10) 1).to_hsla = (0, 0, 9/10, 1)
    ∧ (from_hsla 0 0 (9/10) 1).to_hex_string = "#e6e6e6"
    ∧ (from_hsla 0 0 (2/5 + (2/5) * (1/2)) 1).to_hex_string = "#999999"
    ∧ (9/10 : ℚ) ≠ 2/5 + (2/5) * (1/2) := by
  refine ⟨by with_unfolding_all decide, by with_unfolding_all decide,
    by with_unfolding_all decide, by with_unfolding_all decide,
    by with_unfolding_all decide, by norm_num⟩

/-! ## HSL round-trip development (for C4) -/

theorem clamp01_of (x : ℚ) (h0 : 0 ≤ x) (h1 : x ≤ 1) : clamp01 x = x := by
  unfold clamp01
  rw [max_eq_right h0, min_eq_right h1]

theorem normalizeAngle_eq_self (x : ℚ) (h0 : 0 ≤ x) (h1 : x < 360) :
    normalizeAngle x = x := by
  unfold normalizeAngle
  have hf : ⌊x / 360⌋ = 0 := by
    rw [Int.floor_eq_zero_iff]
    exact Set.mem_Ico.mpr ⟨by positivity, by rw [div_lt_one (by norm_num)]; exact h1⟩
  rw [hf]
  push_cast
  ring

theorem normalizeAngle_sub_360 (x : ℚ) : normalizeAngle (x - 360) = normalizeAngle x := by
  unfold normalizeAngle
  rw [show (x - 360) / 360 = x / 360 - 1 from by ring, Int.floor_sub_one]
  push_cast
  ring

theorem h2r_ramp_up (p q t : ℚ) (h1 : 0 ≤ t) (h2 : t < 1/6) :
    hue_to_rgb p q t = p + (q - p) * 6 * t := by
  have hf : ⌊t⌋ = 0 := by
    rw [Int.floor_eq_zero_iff]; exact Set.mem_Ico.mpr ⟨h1, by linarith⟩
  simp only [hue_to_rgb, hf, Int.cast_zero, sub_zero]
  rw [if_pos (by linarith)]

theorem h2r_flat_q (p q t : ℚ) (h1 : 1/6 ≤ t) (h2 : t < 1/2) : hue_to_rgb p q t = q := by
  have hf : ⌊t⌋ = 0 := by
    rw [Int.floor_eq_zero_iff]; exact Set.mem_Ico.mpr ⟨by linarith, by linarith⟩
  simp only [hue_to_rgb, hf, Int.cast_zero, sub_zero]
  rw [if_neg (by linarith), if_pos (by linarith)]

theorem h2r_ramp_down (p q t : ℚ) (h1 : 1/2 ≤ t) (h2 : t < 2/3) :
    hue_to_rgb p q t = p + (q - p) * (2/3 - t) * 6 := by
  have hf : ⌊t⌋ = 0 := by
    rw [Int.floor_eq_zero_iff]; exact Set.mem_Ico.mpr ⟨by linarith, by linarith⟩
  simp only [hue_to_rgb, hf, Int.cast_zero, sub_zero]
  rw [if_neg (by linarith), if_neg (by linarith), if_pos (by linarith)]

theorem h2r_flat_p (p q t : ℚ) (h1 : 2/3 ≤ t) (h2 : t < 1) : hue_to_rgb p q t = p := by
  have hf : ⌊t⌋ = 0 := by
    rw [Int.floor_eq_zero_iff]; exact Set.mem_Ico.mpr ⟨by linarith, by linarith⟩
  simp only [hue_to_rgb, hf, Int.cast_zero, sub_zero]
  rw [if_neg (by linarith), if_neg (by linarith), if_neg (by linarith)]

theorem h2r_sub_one (p q t : ℚ) : hue_to_rgb p q (t - 1) = hue_to_rgb p q t := by
  simp only [hue_to_rgb]
  rw [show t - 1 - (⌊t - 1⌋ : ℚ) = t - ⌊t⌋ from by rw [Int.floor_sub_one]; push_cast; ring]

theorem hslPQ_sum (s l : ℚ) : hslP s l + hslQ s l = 2 * l := by
  unfold hslP
  ring

theorem hslQ_gt (s l : ℚ) (hs : 0 < s) (hl0 : 0 < l) (hl1 : l < 1) : l < hslQ s l := by
  unfold hslQ
  split <;> nlinarith

theorem s_recover (s l q p : ℚ) (hq : q = hslQ s l) (hp : p = 2 * l - q)
    (hs0 : 0 < s) (hl0 : 0 < l) (hl1 : l < 1) :
    (if (q + p) / 2 < 1/2 then (q - p) / (q + p) else (q - p) / (2 - q - p)) = s := by
  subst hp
  subst hq
  rw [show (hslQ s l + (2 * l - hslQ s l)) / 2 = l from by ring]
  unfold hslQ
  by_cases hl : l < 1/2
  · simp only [if_pos hl]
    rw [show l * (1 + s) - (2 * l - l * (1 + s)) = 2 * (l * s) from by ring,
        show l * (1 + s) + (2 * l - l * (1 + s)) = 2 * l from by ring,
        div_eq_iff (by positivity)]
    ring
  · simp only [if_neg hl]
    rw [show (l + s - l * s) - (2 * l - (l + s - l * s)) = 2 * (s * (1 - l)) from by ring,
        show 2 - (l + s - l * s) - (2 * l - (l + s - l * s)) = 2 * (1 - l) from by ring,
        div_eq_iff (by nlinarith)]
    ring

theorem rgb_to_hsl_pos_A (p q m : ℚ) (hpq : p < q) (hm1 : p ≤ m) (hm2 : m ≤ q) :
    rgb_to_hsl q m p =
      (normalizeAngle ((m - p) / (q - p) * 60),
       if (q + p) / 2 < 1/2 then (q - p) / (q + p) else (q - p) / (2 - q - p),
       (q + p) / 2) := by
  have hmax : max q (max m p) = q := by rw [max_eq_left hm1, max_eq_left hm2]
  have hmin : min q (min m p) = p := by rw [min_eq_right hm1, min_eq_right (le_of_lt hpq)]
  simp only [rgb_to_hsl, hmax, hmin]
  rw [if_neg (ne_of_gt hpq)]
  simp only [if_true]

theorem rgb_to_hsl_pos_B (p q m : ℚ) (hpq : p < q) (hm1 : p ≤ m) (hm2 : m ≤ q) :
    rgb_to_hsl m q p =
      (normalizeAngle ((2 + (p - m) / (q - p)) * 60),
       if (q + p) / 2 < 1/2 then (q - p) / (q + p) else (q - p) / (2 - q - p),
       (q + p) / 2) := by
  have hmax : max m (max q p) = q := by rw [max_eq_left (le_of_lt hpq), max_eq_right hm2]
  have hmin : min m (min q p) = p := by rw [min_eq_right (le_of_lt hpq), min_eq_right hm1]
  simp only [rgb_to_hsl, hmax, hmin]
  rw [if_neg (ne_of_gt hpq)]
  by_cases hqm : q = m
  · rw [if_pos hqm]
    simp only [Prod.mk.injEq, eq_self_iff_true, and_true, true_and]
    rw [div_self (sub_ne_zero.mpr (ne_of_gt hpq)),
        show (p - m) / (q - p) = -1 from by
          rw [← hqm, div_eq_iff (sub_ne_zero.mpr (ne_of_gt hpq))]; ring]
    norm_num
  · rw [if_neg hqm]
    simp only [if_true]

theorem rgb_to_hsl_pos_C (p q m : ℚ) (hpq : p < q) (hm1 : p ≤ m) (hm2 : m ≤ q) :
    rgb_to_hsl p q m =
      (normalizeAngle ((2 + (m - p) / (q - p)) * 60),
       if (q + p) / 2 < 1/2 then (q - p) / (q + p) else (q - p) / (2 - q - p),
       (q + p) / 2) := by
  have hmax : max p (max q m) = q := by rw [max_eq_left hm2, max_eq_right (le_of_lt hpq)]
  have hmin : min p (min q m) = p := by rw [min_eq_right hm2, min_eq_left hm1]
  simp only [rgb_to_hsl, hmax, hmin]
  rw [if_neg (ne_of_gt hpq), if_neg (ne_of_gt hpq)]
  simp only [if_true]

theorem rgb_to_hsl_pos_D (p q m : ℚ) (hpq : p < q) (hm1 : p ≤ m) (hm2 : m ≤ q) :
    rgb_to_hsl p m q =
      (normalizeAngle ((4 + (p - m) / (q - p)) * 60),
       if (q + p) / 2 < 1/2 then (q - p) / (q + p) else (q - p) / (2 - q - p),
       (q + p) / 2) := by
  have hmax : max p (max m q) = q := by rw [max_eq_right hm2, max_eq_right (le_of_lt hpq)]
  have hmin : min p (min m q) = p := by rw [min_eq_left hm2, min_eq_left hm1]
  simp only [rgb_to_hsl, hmax, hmin]
  rw [if_neg (ne_of_gt hpq), if_neg (ne_of_gt hpq)]
  by_cases hqm : q = m
  · rw [if_pos hqm]
    simp only [Prod.mk.injEq, eq_self_iff_true, and_true, true_and]
    rw [div_self (sub_ne_zero.mpr (ne_of_gt hpq)),
        show (p - m) / (q - p) = -1 from by
          rw [← hqm, div_eq_iff (sub_ne_zero.mpr (ne_of_gt hpq))]; ring]
    norm_num
  · rw [if_neg hqm]

theorem rgb_to_hsl_pos_E (p q m : ℚ) (hpq : p < q) (hm1 : p ≤ m) (hm2 : m ≤ q) :
    rgb_to_hsl m p q =
      (normalizeAngle ((4 + (m - p) / (q - p)) * 60),
       if (q + p) / 2 < 1/2 then (q - p) / (q + p) else (q - p) / (2 - q - p),
       (q + p) / 2) := by
  have hmax : max m (max p q) = q := by rw [max_eq_right (le_of_lt hpq), max_eq_right hm2]
  have hmin : min m (min p q) = p := by rw [min_eq_left (le_of_lt hpq), min_eq_right hm1]
  simp only [rgb_to_hsl, hmax, hmin]
  rw [if_neg (ne_of_gt hpq)]
  by_cases hqm : q = m
  · rw [if_pos hqm]
    simp only [Prod.mk.injEq, eq_self_iff_true, and_true, true_and]
    rw [show (p - q) / (q - p) = -1 from by
          rw [div_eq_iff (sub_ne_zero.mpr (ne_of_gt hpq))]; ring,
        show (m - p) / (q - p) = 1 from by
          rw [← hqm, div_self (sub_ne_zero.mpr (ne_of_gt hpq))]]
    norm_num
    with_unfolding_all decide
  · rw [if_neg hqm, if_neg (ne_of_gt hpq)]

theorem rgb_to_hsl_pos_F (p q m : ℚ) (hpq : p < q) (hm1 : p ≤ m) (hm2 : m ≤ q) :
    rgb_to_hsl q p m =
      (normalizeAngle ((p - m) / (q - p) * 60),
       if (q + p) / 2 < 1/2 then (q - p) / (q + p) else (q - p) / (2 - q - p),
       (q + p) / 2) := by
  have hmax : max q (max p m) = q := by rw [max_eq_right hm1, max_eq_left hm2]
  have hmin : min q (min p m) = p := by rw [min_eq_left hm1, min_eq_right (le_of_lt hpq)]
  simp only [rgb_to_hsl, hmax, hmin]
  rw [if_neg (ne_of_gt hpq)]
  simp only [if_true]

theorem sector1_channels (p q h' : ℚ) (h0 : 0 ≤ h') (h1 : h' < 1/6) :
    hue_to_rgb p q (h' + 1/3) = q
    ∧ hue_to_rgb p q h' = p + (q - p) * 6 * h'
    ∧ hue_to_rgb p q (h' - 1/3) = p := by
  refine ⟨h2r_flat_q p q _ (by linarith) (by linarith), h2r_ramp_up p q _ h0 h1, ?_⟩
  rw [show h' - 1/3 = (h' + 2/3) - 1 from by ring, h2r_sub_one]
  exact h2r_flat_p p q _ (by linarith) (by linarith)

theorem sector2_channels (p q h' : ℚ) (h0 : 1/6 ≤ h') (h1 : h' < 1/3) :
    hue_to_rgb p q (h' + 1/3) = p + (q - p) * (2/3 - (h' + 1/3)) * 6
    ∧ hue_to_rgb p q h' = q
    ∧ hue_to_rgb p q (h' - 1/3) = p := by
  refine ⟨h2r_ramp_down p q _ (by linarith) (by linarith),
    h2r_flat_q p q _ h0 (by linarith), ?_⟩
  rw [show h' - 1/3 = (h' + 2/3) - 1 from by ring, h2r_sub_one]
  exact h2r_flat_p p q _ (by linarith) (by linarith)

theorem sector3_channels (p q h' : ℚ) (h0 : 1/3 ≤ h') (h1 : h' < 1/2) :
    hue_to_rgb p q (h' + 1/3) = p
    ∧ hue_to_rgb p q h' = q
    ∧ hue_to_rgb p q (h' - 1/3) = p + (q - p) * 6 * (h' - 1/3) := by
  exact ⟨h2r_flat_p p q _ (by linarith) (by linarith),
    h2r_flat_q p q _ (by linarith) h1,
    h2r_ramp_up p q _ (by linarith) (by linarith)⟩

theorem sector4_channels (p q h' : ℚ) (h0 : 1/2 ≤ h') (h1 : h' < 2/3) :
    hue_to_rgb p q (h' + 1/3) = p
    ∧ hue_to_rgb p q h' = p + (q - p) * (2/3 - h') * 6
    ∧ hue_to_rgb p q (h' - 1/3) = q := by
  exact ⟨h2r_flat_p p q _ (by linarith) (by linarith),
    h2r_ramp_down p q _ h0 h1,
    h2r_flat_q p q _ (by linarith) (by linarith)⟩

theorem sector5_channels (p q h' : ℚ) (h0 : 2/3 ≤ h') (h1 : h' < 5/6) :
    hue_to_rgb p q (h' + 1/3) = p + (q - p) * 6 * (h' - 2/3)
    ∧ hue_to_rgb p q h' = p
    ∧ hue_to_rgb p q (h' - 1/3) = q := by
  refine ⟨?_, h2r_flat_p p q _ h0 (by linarith),
    h2r_flat_q p q _ (by linarith) (by linarith)⟩
  rw [show h' + 1/3 = (h' - 2/3) + 1 from by ring,
      ← h2r_sub_one p q ((h' - 2/3) + 1),
      show (h' - 2/3) + 1 - 1 = h' - 2/3 from by ring]
  exact h2r_ramp_up p q _ (by linarith) (by linarith)

theorem sector6_channels (p q h' : ℚ) (h0 : 5/6 ≤ h') (h1 : h' < 1) :
    hue_to_rgb p q (h' + 1/3) = q
    ∧ hue_to_rgb p q h' = p
    ∧ hue_to_rgb p q (h' - 1/3) = p + (q - p) * (2/3 - (h' - 1/3)) * 6 := by
  refine ⟨?_, h2r_flat_p p q _ (by linarith) h1,
    h2r_ramp_down p q _ (by linarith) (by linarith)⟩
  rw [show h' + 1/3 = (h' - 2/3) + 1 from by ring,
      ← h2r_sub_one p q ((h' - 2/3) + 1),
      show (h' - 2/3) + 1 - 1 = h' - 2/3 from by ring]
  exact h2r_flat_q p q _ (by linarith) (by linarith)

theorem hue_final (h h' x : ℚ) (hh' : h' = h / 360) (hh0 : 0 ≤ h) (hh1 : h < 360)
    (hx : x = 360 * h') : normalizeAngle x = h := by
  rw [hx, hh', show (360 : ℚ) * (h / 360) = h from by field_simp]
  exact normalizeAngle_eq_self h hh0 hh1

theorem hue_final6 (h h' x : ℚ) (hh' : h' = h / 360) (hh0 : 0 ≤ h) (hh1 : h < 360)
    (hx : x = 360 * h' - 360) : normalizeAngle x = h := by
  rw [hx, normalizeAngle_sub_360 (360 * h')]
  exact hue_final h h' _ hh' hh0 hh1 rfl

set_option maxHeartbeats 1600000 in
/-- The CSS HSL round trip: converting in-range hue/saturation/lightness/alpha
to RGB and back recovers them exactly. -/
theorem to_hsla_from_hsla (h s l a : ℚ) (hh0 : 0 ≤ h) (hh1 : h < 360)
    (hs0 : 0 < s) (hs1 : s ≤ 1) (hl0 : 0 < l) (hl1 : l < 1) (ha0 : 0 ≤ a) (ha1 : a ≤ 1) :
    (from_hsla h s l a).to_hsla = (h, s, l, a) := by
  have hq : l < hslQ s l := hslQ_gt s l hs0 hl0 hl1
  have hpq : hslP s l < hslQ s l := by unfold hslP; linarith
  have hd : hslQ s l - hslP s l ≠ 0 := sub_ne_zero.mpr (ne_of_gt hpq)
  have hP : hslP s l = 2 * l - hslQ s l := rfl
  have hsrec := s_recover s l (hslQ s l) (hslP s l) rfl hP hs0 hl0 hl1
  have hsum : hslP s l + hslQ s l = 2 * l := hslPQ_sum s l
  have hlgoal : (hslQ s l + hslP s l) / 2 = l := by linarith
  simp only [from_hsla, normalizeAngle_eq_self h hh0 hh1,
    clamp01_of s (le_of_lt hs0) hs1, clamp01_of l (le_of_lt hl0) (le_of_lt hl1),
    clamp01_of a ha0 ha1, hsl_to_rgb, if_neg (ne_of_gt hs0), Color.to_hsla]
  set h' := h / 360 with hh'
  have h'0 : 0 ≤ h' := by rw [hh']; positivity
  have h'1 : h' < 1 := by
    rw [hh', div_lt_one (by norm_num : (0:ℚ) < 360)]; exact hh1
  rcases lt_or_le h' (1/6) with hsec | hs2a
  · obtain ⟨hr, hg, hb⟩ := sector1_channels (hslP s l) (hslQ s l) h' h'0 hsec
    rw [hr, hg, hb,
      rgb_to_hsl_pos_A (hslP s l) (hslQ s l) (hslP s l + (hslQ s l - hslP s l) * 6 * h') hpq
        (by nlinarith [sub_pos.mpr hpq, h'0]) (by nlinarith [sub_pos.mpr hpq, h'0, hsec])]
    simp only [Prod.mk.injEq]
    refine ⟨hue_final h h' _ hh' hh0 hh1 (by field_simp; ring), hsrec, hlgoal, trivial⟩
  rcases lt_or_le h' (1/3) with hsec | hs3a
  · obtain ⟨hr, hg, hb⟩ := sector2_channels (hslP s l) (hslQ s l) h' hs2a hsec
    rw [hr, hg, hb,
      rgb_to_hsl_pos_B (hslP s l) (hslQ s l)
        (hslP s l + (hslQ s l - hslP s l) * (2/3 - (h' + 1/3)) * 6) hpq
        (by nlinarith [sub_pos.mpr hpq, hsec]) (by nlinarith [sub_pos.mpr hpq, hs2a])]
    simp only [Prod.mk.injEq]
    refine ⟨hue_final h h' _ hh' hh0 hh1 (by field_simp; ring), hsrec, hlgoal, trivial⟩
  rcases lt_or_le h' (1/2) with hsec | hs4a
  · obtain ⟨hr, hg, hb⟩ := sector3_channels (hslP s l) (hslQ s l) h' hs3a hsec
    rw [hr, hg, hb,
      rgb_to_hsl_pos_C (hslP s l) (hslQ s l)
        (hslP s l + (hslQ s l - hslP s l) * 6 * (h' - 1/3)) hpq
        (by nlinarith [sub_pos.mpr hpq, hs3a]) (by nlinarith [sub_pos.mpr hpq, hsec])]
    simp only [Prod.mk.injEq]
    refine ⟨hue_final h h' _ hh' hh0 hh1 (by field_simp; ring), hsrec, hlgoal, trivial⟩
  rcases lt_or_le h' (2/3) with hsec | hs5a
  · obtain ⟨hr, hg, hb⟩ := sector4_channels (hslP s l) (hslQ s l) h' hs4a hsec
    rw [hr, hg, hb,
      rgb_to_hsl_pos_D (hslP s l) (hslQ s l)
        (hslP s l + (hslQ s l - hslP s l) * (2/3 - h') * 6) hpq
        (by nlinarith [sub_pos.mpr hpq, hsec]) (by nlinarith [sub_pos.mpr hpq, hs4a])]
    simp only [Prod.mk.injEq]
    refine ⟨hue_final h h' _ hh' hh0 hh1 (by field_simp; ring), hsrec, hlgoal, trivial⟩
  rcases lt_or_le h' (5/6) with hsec | hs6a
  · obtain ⟨hr, hg, hb⟩ := sector5_channels (hslP s l) (hslQ s l) h' hs5a hsec
    rw [hr, hg, hb,
      rgb_to_hsl_pos_E (hslP s l) (hslQ s l)
        (hslP s l + (hslQ s l - hslP s l) * 6 * (h' - 2/3)) hpq
        (by nlinarith [sub_pos.mpr hpq, hs5a]) (by nlinarith [sub_pos.mpr hpq, hsec])]
    simp only [Prod.mk.injEq]
    refine ⟨hue_final h h' _ hh' hh0 hh1 (by field_simp; ring), hsrec, hlgoal, trivial⟩
  · obtain ⟨hr, hg, hb⟩ := sector6_channels (hslP s l) (hslQ s l) h' hs6a h'1
    rw [hr, hg, hb,
      rgb_to_hsl_pos_F (hslP s l) (hslQ s l)
        (hslP s l + (hslQ s l - hslP s l) * (2/3 - (h' - 1/3)) * 6) hpq
        (by nlinarith [sub_pos.mpr hpq, h'1]) (by nlinarith [sub_pos.mpr hpq, hs6a])]
    simp only [Prod.mk.injEq]
    refine ⟨hue_final6 h h' _ hh' hh0 hh1 (by field_simp; ring), hsrec, hlgoal, trivial⟩

set_option maxHeartbeats 800000 in
/-- C4 (amended): in the core crate the studio.tokens HSL transform is indeed
multiplicative — lighten maps the base color's HSL lightness `l` to `l + l*f`
and darken to `l - l*f`, with hue, saturation and alpha unchanged (shown by
converting the transformed color back to HSL), in the constant renderer's
`to_rust` and in the stylesheet renderer's `to_css` alike.  The legacy root
crate's stylesheet transform, however, is additive (`l + f`), as the
counterexample shows, so the claim does not hold of that cited variant. -/
theorem c4_core_hsl_multiplicative (c : Color) (h s l a f : ℚ) (fs : String)
    (hv : parseF64 fs = some f) (hhsla : c.to_hsla = (h, s, l, a))
    (hh0 : 0 ≤ h) (hh1 : h < 360) (hs0 : 0 < s) (hs1 : s ≤ 1)
    (ha0 : 0 ≤ a) (ha1 : a ≤ 1)
    (hlight0 : 0 < l + l * f) (hlight1 : l + l * f < 1)
    (hdark0 : 0 < l - l * f) (hdark1 : l - l * f < 1) :
    (StudioTokensExtension.modify .lighten fs .hsl).to_rust (.color c)
        = some (.color (from_hsla h s (l + l * f) a))
    ∧ (from_hsla h s (l + l * f) a).to_hsla = (h, s, l + l * f, a)
    ∧ (StudioTokensExtension.modify .darken fs .hsl).to_rust (.color c)
        = some (.color (from_hsla h s (l - l * f) a))
    ∧ (from_hsla h s (l - l * f) a).to_hsla = (h, s, l - l * f, a)
    ∧ (StudioTokensExtension.modify .lighten fs .hsl).to_css (.color c)
        = some ((from_hsla h s (l + l * f) a).to_hex_string) := by
  refine ⟨?_,
    to_hsla_from_hsla h s (l + l * f) a hh0 hh1 hs0 hs1 hlight0 hlight1 ha0 ha1,
    ?_,
    to_hsla_from_hsla h s (l - l * f) a hh0 hh1 hs0 hs1 hdark0 hdark1 ha0 ha1,
    ?_⟩
  · simp [StudioTokensExtension.to_rust, hv, hhsla]
  · simp [StudioTokensExtension.to_rust, hv, hhsla]
  · simp [StudioTokensExtension.to_css, hv, hhsla]

/-- C4 witness: on the color `(1/2, 1/4, 1/4, 1)` — HSL `(0, 1/3, 3/8, 1)` —
with factor 0.5, lighten yields lightness `3/8 + 3/8 * 1/2 = 9/16` and darken
`3/16`, hue, saturation and alpha unchanged. -/
theorem c4_core_hsl_multiplicative_witness :
    (StudioTokensExtension.modify .lighten "0.5" .hsl).to_rust
        (.color ⟨1/2, 1/4, 1/4, 1⟩)
        = some (.color (from_hsla 0 (1/3) (3/8 + 3/8 * (1/2)) 1))
    ∧ (from_hsla 0 (1/3) (3/8 + 3/8 * (1/2)) 1).to_hsla = (0, 1/3, 3/8 + 3/8 * (1/2), 1)
    ∧ (StudioTokensExtension.modify .darken "0.5" .hsl).to_rust
        (.color ⟨1/2, 1/4, 1/4, 1⟩)
        = some (.color (from_hsla 0 (1/3) (3/8 - 3/8 * (1/2)) 1))
    ∧ (from_hsla 0 (1/3) (3/8 - 3/8 * (1/2)) 1).to_hsla = (0, 1/3, 3/8 - 3/8 * (1/2), 1)
    ∧ (StudioTokensExtension.modify .lighten "0.5" .hsl).to_css
        (.color ⟨1/2, 1/4, 1/4, 1⟩)
        = some ((from_hsla 0 (1/3) (3/8 + 3/8 * (1/2)) 1).to_hex_string) :=
  c4_core_hsl_multiplicative ⟨1/2, 1/4, 1/4, 1⟩ 0 (1/3) (3/8) 1 (1/2) "0.5"
    (by with_unfolding_all decide) (by with_unfolding_all decide)
    (by norm_num) (by norm_num) (by norm_num) (by norm_num)
    (by norm_num) (by norm_num) (by norm_num) (by norm_num)
    (by norm_num) (by norm_num)
